import Mathlib

/-
Shallow embedding of the clox-style bytecode virtual machine of `src/vm.c`.

Modelling conventions:
 * IEEE-754 doubles are modelled as rationals (`ℚ`).  The only numeric
   operations the theorems below rely on (negation, comparison of small
   integers, truncation toward zero) agree with IEEE semantics on the
   inputs used.
 * Heap objects are addressed by `Ref := Nat` indices into a `List Obj`
   heap; allocation appends at the end.  The garbage collector is not
   modelled: no theorem below concerns collection, and a GC cycle never
   changes the address or the content of a reachable object.
 * The value stack is a C array indexed by `stack_top`; since the code can
   move `stack_top` below the base (see `value_call`, native case), it is
   modelled as a total function `Int → Value` plus an integer `top`
   (offset of `stack_top` from `stack`, the base pointer).
 * C behavior that is undefined (dereferencing a type-confused object
   pointer, reading past the end of an array through a cast) is modelled
   by the distinguished step outcome `StepOut.ub` / by `Option` results
   in the helper functions.  No theorem draws a positive conclusion from
   such a branch; they only ever witness that the code did *not* take a
   defined path that the specification requires.
 * `stderr` is modelled as a list of `ErrEvent`s: `raise_runtime_error`
   appends the formatted message and then one trace event per frame, top
   frame first, exactly as the C loop in vm.c lines 29–44 does.
 * Functions of this repository that are not under src/ (the hash table,
   the value/object helpers, the list object) are modelled from the spec;
   each such definition carries a doc comment starting with
   "Modelled from the spec:".
-/

/-- Heap references: indices into the VM's object heap. -/
abbrev Ref := Nat

/-- Modelled from the spec: a Value is a tagged variant with exactly the
cases nil, bool, number (IEEE double, modelled as a rational) and an
object handle (spec §3). -/
inductive Value where
  | nil
  | bool (b : Bool)
  | number (d : ℚ)
  | obj (r : Ref)
deriving Repr, DecidableEq

/-- Modelled from the spec: hash tables map interned strings to values;
string interning makes pointer identity coincide with content equality
(spec §3, §4.2), so the model keys tables directly by string content.
The table is modelled abstractly as an association list with at most one
binding per key (set replaces, delete removes). -/
abbrev Table := List (String × Value)

/-- Modelled from the spec: `get(key) → value?` (spec §4.2). -/
def table_get (t : Table) (k : String) : Option Value :=
  match t with
  | [] => none
  | (k', v') :: rest => if k' = k then some v' else table_get rest k

/-- Modelled from the spec: `set(key, value)` inserts or replaces a
binding.  The boolean result is true exactly when the key was new: spec
§4.3 has `SET_GLOBAL` treat a true result from `table_set` as "the key
was absent" (the entry was just inserted), which fixes the polarity. -/
def table_set (t : Table) (k : String) (v : Value) : Table × Bool :=
  match t with
  | [] => ([(k, v)], true)
  | (k', v') :: rest =>
      if k' = k then ((k, v) :: rest, false)
      else
        let r := table_set rest k v
        ((k', v') :: r.1, r.2)

/-- Modelled from the spec: `delete(key)` removes the binding for the key
(a tombstone in the real open-addressed table; abstractly, removal). -/
def table_delete (t : Table) (k : String) : Table :=
  match t with
  | [] => []
  | (k', v') :: rest => if k' = k then rest else (k', v') :: table_delete rest k

/-- Modelled from the spec: `table_append` lives in the hash-table module,
which is not under src/.  Per spec §4.2 it copies all live entries of one
table into the other; per spec §9 the `OP_INHERIT` call site
`table_append(&superclass->methods, &subclass->methods)` copies the
*subclass's* methods into the *superclass's* table (the direction is
swapped relative to the spec's stated intent).  Hence `table_append a b`
returns `a` with every entry of `b` inserted. -/
def table_append (a b : Table) : Table :=
  b.foldl (fun acc kv => (table_set acc kv.1 kv.2).1) a

/-- Upvalue payload: open (borrowing a stack slot, identified by its
offset from the stack base) or closed (owning a value). -/
inductive UpvState where
  | open_ (location : Int)
  | closed (v : Value)
deriving Repr, DecidableEq

/-- Bytecode chunk: code bytes, constants pool, parallel line array. -/
structure Chunk where
  code : List Nat
  constants : List Value
  lines : List Nat
deriving Repr, DecidableEq

/-- Function object payload (ObjFunction). -/
structure FunctionO where
  arity : Nat
  upvalue_count : Nat
  chunk : Chunk
  name : Option String
deriving Repr, DecidableEq

/-- Heap object variants (spec §3).  `NativeId` enumerates the four
registered natives of vm.c. -/
inductive NativeId where
  | clock
  | length
  | append
  | delete
deriving Repr, DecidableEq

inductive Obj where
  | string (s : String)
  | function (fn : FunctionO)
  | closure (fnRef : Ref) (upvalues : List Ref)
  | upvalue (st : UpvState)
  | cls (name : String) (methods : Table)
  | inst (clsRef : Ref) (fields : Table)
  | bound (receiver : Value) (method : Ref)
  | native (id : NativeId)
  | list (items : List Value)
deriving Repr, DecidableEq

/-- Events written to stderr.  `raise_runtime_error` emits the formatted
message, then one `trace` event per call frame (top frame first):
"[line L] in name()" or "script" when the function has no name.
`badTrace` marks a frame whose closure reference is type-confused (C
would dereference garbage; no theorem relies on this case). -/
inductive ErrEvent where
  | msg (s : String)
  | trace (line : Nat) (fnName : Option String)
  | badTrace
deriving Repr, DecidableEq

/-- Events written to stdout by OP_PRINT / OP_PRINTLN. -/
inductive OutEvent where
  | val (v : Value)
  | newline
deriving Repr, DecidableEq

/-- Call frame: closure reference, instruction offset into that closure's
function's code, and the frame's base slot (offset from the stack base). -/
structure Frame where
  closure : Ref
  ip : Nat
  slots : Int
deriving Repr, DecidableEq

/-- Modelled from the spec: FRAMES_MAX is 256 (spec §4.3); vm.h is not
under src/. -/
def FRAMES_MAX : Nat := 256

/-- The VM state of vm.c (the parts the dispatch loop touches). -/
structure VM where
  stack : Int → Value
  top : Int
  frames : List Frame
  globals : Table
  openUpvalues : List Ref
  heap : List Obj
  stderrLog : List ErrEvent
  stdoutLog : List OutEvent

def vm_stack_push (vm : VM) (v : Value) : VM :=
  { vm with stack := Function.update vm.stack vm.top v, top := vm.top + 1 }

def vm_stack_pop (vm : VM) : Value × VM :=
  (vm.stack (vm.top - 1), { vm with top := vm.top - 1 })

def vm_stack_peek (vm : VM) (distance : Nat) : Value :=
  vm.stack (vm.top - 1 - distance)

/-- Writes a stack slot in place (used for `vm.stack_top[-argc-1] = ...`
and `frame->slots[slot] = ...`). -/
def stackWrite (vm : VM) (i : Int) (v : Value) : VM :=
  { vm with stack := Function.update vm.stack i v }

/-- Looks up the function object behind a closure reference. -/
def closureFn (heap : List Obj) (r : Ref) : Option FunctionO :=
  match heap[r]? with
  | some (.closure fnRef _) =>
      match heap[fnRef]? with
      | some (.function fn) => some fn
      | _ => none
  | _ => none

/-- Stack-trace line for one frame: the function's line at `ip - 1` and
its name (none = "script"), as printed by vm.c lines 29–44. -/
def traceEvent (heap : List Obj) (f : Frame) : ErrEvent :=
  match closureFn heap f.closure with
  | some fn => .trace (fn.chunk.lines.getD (f.ip - 1) 0) fn.name
  | none => .badTrace

/-- Stack trace, top frame first (vm.c iterates i = frame_count-1 downto 0). -/
def stackTrace (vm : VM) : List ErrEvent :=
  vm.frames.reverse.map (traceEvent vm.heap)

/-- Transcribes `raise_runtime_error` (vm.c lines 21–47): print the
message, print the stack trace top to bottom, then `vm_stack_reset`
(stack_top back to the base, frame count zero, open-upvalue list empty). -/
def raise_runtime_error (vm : VM) (m : String) : VM :=
  { vm with
      stderrLog := vm.stderrLog ++ .msg m :: stackTrace vm,
      top := 0,
      frames := [],
      openUpvalues := [] }

/-- Modelled from the spec: the `obj_is_list` kind test (value is an
object handle whose heap record is a List; spec §3). -/
def obj_is_list (heap : List Obj) : Value → Bool
  | .obj r =>
      match heap[r]? with
      | some (.list _) => true
      | _ => false
  | _ => false

/-- Coerces a value to its list payload; `none` when the value is not a
handle to a List object (C's `obj_as_list` would reinterpret the record:
undefined behavior). -/
def obj_as_list (heap : List Obj) : Value → Option (List Value)
  | .obj r =>
      match heap[r]? with
      | some (.list items) => some items
      | _ => none
  | _ => none

/-- Modelled from the spec: `obj_as_list` is a pointer coercion (a cast
of the value's object handle), so using its result as a *truthiness
test* — as `OP_LIST_GETIDX`/`OP_LIST_SETIDX` do — checks pointer
non-nullness, not the List kind (spec §9).  Object handles are non-null;
for non-object values the C reads an unspecified union member, so this
model returns false there and no theorem depends on that branch. -/
def obj_as_list_nonnull : Value → Bool
  | .obj _ => true
  | _ => false

def value_is_number : Value → Bool
  | .number _ => true
  | _ => false

/-- Reads the number payload.  On a non-number the C macro reads an
unspecified union member; the handlers below either guard the call with
`value_is_number` or model the unguarded use as undefined behavior, so
the default branch is never relied upon. -/
def value_as_number : Value → ℚ
  | .number d => d
  | _ => 0

/-- C double-to-int conversion: truncation toward zero. -/
def double_to_int (q : ℚ) : Int :=
  Int.tdiv q.num q.den

/-- Modelled from the spec: list indices are valid in [0, count)
(spec §4.3, "out-of-range in [0, count) raises a runtime error"). -/
def obj_list_is_valid_index (items : List Value) (i : Int) : Bool :=
  decide (0 ≤ i ∧ i < (items.length : Int))

/-- Modelled from the spec: bounds-checked element read (spec §2,
"growable ordered sequence of values with bounds-checked get"). -/
def obj_list_get (items : List Value) (i : Int) : Value :=
  items.getD i.toNat .nil

/-- Modelled from the spec: bounds-checked element write. -/
def obj_list_set (items : List Value) (i : Int) (v : Value) : List Value :=
  items.set i.toNat v

/-- Modelled from the spec: `delete` removes the element at the index,
shifting the tail left (spec §4.4). -/
def obj_list_delete (items : List Value) (i : Int) : List Value :=
  items.eraseIdx i.toNat

/-- Overwrites the heap record at a reference (in-place object mutation). -/
def heapSet (heap : List Obj) (r : Ref) (o : Obj) : List Obj :=
  heap.set r o

/-- Arguments passed to a native: `argc` values starting at
`stack_top - argc` (vm.c line 248). -/
def argsRead (vm : VM) (argc : Nat) : List Value :=
  (List.range argc).map (fun i => vm.stack (vm.top - argc + i))

/-- Transcribes `native_fn_clock`.  The host CPU time is not modelled;
the returned number is fixed at 0 and no theorem mentions it. -/
def native_fn_clock (_argc : Nat) (_args : List Value) (vm : VM) : Value × VM :=
  (.number 0, vm)

/-- Transcribes `native_fn_list_length` (vm.c lines 66–82). -/
def native_fn_list_length (argc : Nat) (args : List Value) (vm : VM) : Value × VM :=
  if argc ≠ 1 then
    (.nil, raise_runtime_error vm ("insufficient arguments, need 1 got=" ++ toString argc))
  else if ¬ obj_is_list vm.heap (args.getD 0 .nil) then
    (.nil, raise_runtime_error vm "cannot get length of a non-list variable.")
  else
    match obj_as_list vm.heap (args.getD 0 .nil) with
    | some items => (.number (items.length : ℚ), vm)
    | none => (.nil, vm)

/-- Transcribes `native_fn_list_append` (vm.c lines 84–102). -/
def native_fn_list_append (argc : Nat) (args : List Value) (vm : VM) : Value × VM :=
  if argc ≠ 2 then
    (.nil, raise_runtime_error vm ("insufficient arguments, need 2 got=" ++ toString argc))
  else if ¬ obj_is_list vm.heap (args.getD 0 .nil) then
    (.nil, raise_runtime_error vm "cannot append item to non-list variable.")
  else
    match args.getD 0 .nil, obj_as_list vm.heap (args.getD 0 .nil) with
    | .obj r, some items =>
        (.nil, { vm with heap := heapSet vm.heap r (.list (items ++ [args.getD 1 .nil])) })
    | _, _ => (.nil, vm)

/-- Transcribes `native_fn_list_delete` (vm.c lines 104–135).  Note the
non-list error message on lines 112–116 is the *append* wording. -/
def native_fn_list_delete (argc : Nat) (args : List Value) (vm : VM) : Value × VM :=
  if argc ≠ 2 then
    (.nil, raise_runtime_error vm ("insufficient arguments, need 2 got=" ++ toString argc))
  else if ¬ obj_is_list vm.heap (args.getD 0 .nil) then
    (.nil, raise_runtime_error vm "cannot append item to non-list variable.")
  else if ¬ value_is_number (args.getD 1 .nil) then
    (.nil, raise_runtime_error vm "index cannot be a non-number value.")
  else
    match args.getD 0 .nil, obj_as_list vm.heap (args.getD 0 .nil) with
    | .obj r, some items =>
        let index := double_to_int (value_as_number (args.getD 1 .nil))
        if ¬ obj_list_is_valid_index items index then
          (.nil, raise_runtime_error vm "index out of range.")
        else
          (.nil, { vm with heap := heapSet vm.heap r (.list (obj_list_delete items index)) })
    | _, _ => (.nil, vm)

/-- Dispatch to the registered native behind a NativeFunction object. -/
def runNative (id : NativeId) (argc : Nat) (args : List Value) (vm : VM) : Value × VM :=
  match id with
  | .clock => native_fn_clock argc args vm
  | .length => native_fn_list_length argc args vm
  | .append => native_fn_list_append argc args vm
  | .delete => native_fn_list_delete argc args vm

/-- Single-quote character, used to build error messages such as
"Undefined variable 'x'.". -/
def sqs : String :=
  String.singleton (Char.ofNat 39)

/-- Replaces the last (current) call frame; matches the C writing through
`frame->ip` into `vm.frames[vm.frame_count - 1]`. -/
def withFrame (vm : VM) (f : Frame) : VM :=
  { vm with frames := vm.frames.dropLast ++ [f] }

/-- Modelled from the spec: string objects are interned — creating a
string whose content already exists yields the existing object
(spec §3, §4.2).  Returns the (possibly fresh) reference and heap. -/
def allocString (heap : List Obj) (s : String) : Ref × List Obj :=
  match heap.findIdx? (· = Obj.string s) with
  | some r => (r, heap)
  | none => (heap.length, heap ++ [.string s])

/-- Transcribes `obj_func_call` (vm.c lines 187–207): arity check, frame
overflow check, then push a frame whose slot base is
`stack_top - argc - 1`.  `none` = the reference is not a closure over a
function (C would dereference a type-confused pointer). -/
def obj_func_call (vm : VM) (closureRef : Ref) (argc : Nat) : Option (Bool × VM) :=
  match closureFn vm.heap closureRef with
  | none => none
  | some fn =>
      if argc ≠ fn.arity then
        some (false, raise_runtime_error vm
          ("Expected " ++ toString fn.arity ++ " argument but got " ++ toString argc ++ "."))
      else if vm.frames.length = FRAMES_MAX then
        some (false, raise_runtime_error vm "Stack overflow.")
      else
        some (true, { vm with frames := vm.frames ++ [⟨closureRef, 0, vm.top - argc - 1⟩] })

/-- Name of the initializer method looked up on class calls ("init"). -/
def init_str : String := "init"

/-- Transcribes `value_call` (vm.c lines 209–261).  `none` marks the
undefined-behavior branches (type-confused casts). -/
def value_call (vm : VM) (callee : Value) (argc : Nat) : Option (Bool × VM) :=
  match callee with
  | .obj r =>
      match vm.heap[r]? with
      | some (.bound recv m) =>
          obj_func_call (stackWrite vm (vm.top - argc - 1) recv) m argc
      | some (.cls _ methods) =>
          let instRef := vm.heap.length
          let vm1 := { vm with heap := vm.heap ++ [.inst r []] }
          let vm2 := stackWrite vm1 (vm1.top - argc - 1) (.obj instRef)
          match table_get methods init_str with
          | some initVal =>
              match initVal with
              | .obj ir => obj_func_call vm2 ir argc
              | _ => none
          | none =>
              if argc ≠ 0 then
                some (false, raise_runtime_error vm2
                  ("Expected 0 argument but got " ++ toString argc ++ "."))
              else
                some (true, vm2)
      | some (.closure _ _) => obj_func_call vm r argc
      | some (.native id) =>
          let args := argsRead vm argc
          let rn := runNative id argc args vm
          let vm2 := { rn.2 with top := rn.2.top - (argc + 1) }
          some (true, vm_stack_push vm2 rn.1)
      | some _ => some (false, raise_runtime_error vm "Can only call functions and classes.")
      | none => none
  | _ => some (false, raise_runtime_error vm "Can only call functions and classes.")

/-- Transcribes `invoke_from_class` (vm.c lines 263–273). -/
def invoke_from_class (vm : VM) (clsRef : Ref) (name : String) (argc : Nat) :
    Option (Bool × VM) :=
  match vm.heap[clsRef]? with
  | some (.cls _ methods) =>
      match table_get methods name with
      | none =>
          some (false, raise_runtime_error vm
            ("Undefined property " ++ sqs ++ name ++ sqs ++ "."))
      | some m =>
          match m with
          | .obj mr => obj_func_call vm mr argc
          | _ => none
  | _ => none

/-- Transcribes `invoke` (vm.c lines 275–295). -/
def invoke (vm : VM) (name : String) (argc : Nat) : Option (Bool × VM) :=
  match vm_stack_peek vm argc with
  | .obj r =>
      match vm.heap[r]? with
      | some (.inst clsRef fields) =>
          match table_get fields name with
          | some v => value_call (stackWrite vm (vm.top - argc - 1) v) v argc
          | none => invoke_from_class vm clsRef name argc
      | _ => some (false, raise_runtime_error vm "Only instances have methods.")
  | _ => some (false, raise_runtime_error vm "Only instances have methods.")

/-- Transcribes `bind_method` (vm.c lines 343–359). -/
def bind_method (vm : VM) (clsRef : Ref) (name : String) : Option (Bool × VM) :=
  match vm.heap[clsRef]? with
  | some (.cls _ methods) =>
      match table_get methods name with
      | none =>
          some (false, raise_runtime_error vm
            ("Undefined property " ++ sqs ++ name ++ sqs ++ "."))
      | some m =>
          match m with
          | .obj mr =>
              let boundRef := vm.heap.length
              let vm1 := { vm with heap := vm.heap ++ [.bound (vm_stack_peek vm 0) mr] }
              let vm2 := (vm_stack_pop vm1).2
              some (true, vm_stack_push vm2 (.obj boundRef))
          | _ => none
  | _ => none

/-- Transcribes `define_method` (vm.c lines 335–341): store peek(0) into
the class at peek(1) under the name, then pop the method. -/
def define_method (vm : VM) (name : String) : Option VM :=
  match vm_stack_peek vm 1 with
  | .obj cr =>
      match vm.heap[cr]? with
      | some (.cls cn methods) =>
          let vm1 := { vm with
            heap := heapSet vm.heap cr (.cls cn (table_set methods name (vm_stack_peek vm 0)).1) }
          some (vm_stack_pop vm1).2
      | _ => none
  | _ => none

/-- Transcribes `string_concat` (vm.c lines 361–377); the result string
is interned (`obj_string_take`). -/
def string_concat (vm : VM) : Option VM :=
  match vm_stack_peek vm 0, vm_stack_peek vm 1 with
  | .obj rb, .obj ra =>
      match vm.heap[rb]?, vm.heap[ra]? with
      | some (.string b), some (.string a) =>
          let al := allocString vm.heap (a ++ b)
          let vm1 := { vm with heap := al.2 }
          let vm2 := (vm_stack_pop (vm_stack_pop vm1).2).2
          some (vm_stack_push vm2 (.obj al.1))
      | _, _ => none
  | _, _ => none

/-- Location of an open upvalue object; `none` when the reference does
not name an open upvalue (the C walk would read a garbage field). -/
def locOf (heap : List Obj) (r : Ref) : Option Int :=
  match heap[r]? with
  | some (.upvalue (.open_ l)) => some l
  | _ => none

/-- Walk of `upvalue_capture` (vm.c lines 297–322) over the open-upvalue
list: skip entries whose location is above `localSlot`; reuse an entry at
exactly `localSlot`; otherwise splice in `newRef`.  Returns the resulting
reference, the new list and whether a fresh object was allocated. -/
def captureGo (heap : List Obj) (localSlot : Int) (newRef : Ref) :
    List Ref → Option (Ref × List Ref × Bool)
  | [] => some (newRef, [newRef], true)
  | r :: rest =>
      match locOf heap r with
      | none => none
      | some l =>
          if localSlot < l then
            match captureGo heap localSlot newRef rest with
            | none => none
            | some (res, rest', isNew) => some (res, r :: rest', isNew)
          else if l = localSlot then
            some (r, r :: rest, false)
          else
            some (newRef, newRef :: r :: rest, true)

/-- Transcribes `upvalue_capture` (vm.c lines 297–322). -/
def upvalue_capture (vm : VM) (localSlot : Int) : Option (Ref × VM) :=
  match captureGo vm.heap localSlot vm.heap.length vm.openUpvalues with
  | none => none
  | some (r, l', isNew) =>
      some (r, { vm with
        openUpvalues := l',
        heap := if isNew then vm.heap ++ [.upvalue (.open_ localSlot)] else vm.heap })

/-- Loop of `upvalue_close_until` (vm.c lines 324–333): close list heads
whose location is ≥ `last`, reading the closed-over value from the
current stack. -/
def closeGo (stack : Int → Value) (last : Int) :
    List Ref → List Obj → Option (List Ref × List Obj)
  | [], heap => some ([], heap)
  | r :: rest, heap =>
      match locOf heap r with
      | none => none
      | some l =>
          if last ≤ l then
            closeGo stack last rest (heapSet heap r (.upvalue (.closed (stack l))))
          else
            some (r :: rest, heap)

/-- Transcribes `upvalue_close_until` (vm.c lines 324–333). -/
def upvalue_close_until (vm : VM) (last : Int) : Option VM :=
  match closeGo vm.stack last vm.openUpvalues vm.heap with
  | none => none
  | some (l', heap') => some { vm with openUpvalues := l', heap := heap' }

/-- Modelled from the spec: truthiness is nil → false, bool → itself,
everything else → true (spec §4.3); `value_is_falsy` is its negation. -/
def value_is_falsy : Value → Bool
  | .nil => true
  | .bool b => !b
  | _ => false

/-- Modelled from the spec: equality is same variant and componentwise
equality, objects (including interned strings) by pointer identity
(spec §4.3), which the handle equality of this model captures. -/
def value_check_equality (a b : Value) : Bool :=
  a == b

/-- Modelled from the spec: kind test for instance objects. -/
def obj_is_instance (heap : List Obj) : Value → Bool
  | .obj r =>
      match heap[r]? with
      | some (.inst _ _) => true
      | _ => false
  | _ => false

/-- Modelled from the spec: kind test for string objects. -/
def obj_is_string (heap : List Obj) : Value → Bool
  | .obj r =>
      match heap[r]? with
      | some (.string _) => true
      | _ => false
  | _ => false

/-- Modelled from the spec: kind test for class objects. -/
def obj_is_class (heap : List Obj) : Value → Bool
  | .obj r =>
      match heap[r]? with
      | some (.cls _ _) => true
      | _ => false
  | _ => false

/-- Result of interpreting (vm.c's InterpretResult). -/
inductive InterpretResult where
  | ok
  | compileError
  | runtimeError
deriving Repr, DecidableEq

/-- Outcome of one iteration of the dispatch loop: continue, leave the
loop with a result, or run into C undefined behavior. -/
inductive StepOut where
  | next (vm : VM)
  | halt (r : InterpretResult) (vm : VM)
  | ub (vm : VM)

def StepOut.state : StepOut → VM
  | .next vm => vm
  | .halt _ vm => vm
  | .ub vm => vm

def StepOut.isNext : StepOut → Bool
  | .next _ => true
  | _ => false

def StepOut.isHaltRE : StepOut → Bool
  | .halt .runtimeError _ => true
  | _ => false

def StepOut.isUB : StepOut → Bool
  | .ub _ => true
  | _ => false

/-- The opcodes of vm.c's switch, in source order. -/
inductive OpCode where
  | opConstant | opNil | opTrue | opFalse | opPop
  | opGetLocal | opSetLocal | opGetGlobal | opDefineGlobal | opSetGlobal
  | opGetUpvalue | opSetUpvalue | opGetProperty | opSetProperty | opGetSuper
  | opEqual | opGreater | opLess | opAdd | opSubtract | opMultiply | opDivide
  | opNot | opNegate | opPrint | opPrintln | opJump | opJumpIfFalse | opLoop
  | opCall | opInvoke | opSuperInvoke | opClosure | opCloseUpvalue
  | opListInit | opListGetIdx | opListSetIdx | opReturn | opClass | opInherit
  | opMethod
deriving Repr, DecidableEq

/-- Modelled from the spec: chunk.h (the OpCode enumeration) is not under
src/; bytes are assigned consecutively in the order of vm.c's switch.
The numbering is immaterial: every theorem quantifies over states whose
current byte is stated through this decoder. -/
def decodeOp : Nat → Option OpCode
  | 0 => some .opConstant
  | 1 => some .opNil
  | 2 => some .opTrue
  | 3 => some .opFalse
  | 4 => some .opPop
  | 5 => some .opGetLocal
  | 6 => some .opSetLocal
  | 7 => some .opGetGlobal
  | 8 => some .opDefineGlobal
  | 9 => some .opSetGlobal
  | 10 => some .opGetUpvalue
  | 11 => some .opSetUpvalue
  | 12 => some .opGetProperty
  | 13 => some .opSetProperty
  | 14 => some .opGetSuper
  | 15 => some .opEqual
  | 16 => some .opGreater
  | 17 => some .opLess
  | 18 => some .opAdd
  | 19 => some .opSubtract
  | 20 => some .opMultiply
  | 21 => some .opDivide
  | 22 => some .opNot
  | 23 => some .opNegate
  | 24 => some .opPrint
  | 25 => some .opPrintln
  | 26 => some .opJump
  | 27 => some .opJumpIfFalse
  | 28 => some .opLoop
  | 29 => some .opCall
  | 30 => some .opInvoke
  | 31 => some .opSuperInvoke
  | 32 => some .opClosure
  | 33 => some .opCloseUpvalue
  | 34 => some .opListInit
  | 35 => some .opListGetIdx
  | 36 => some .opListSetIdx
  | 37 => some .opReturn
  | 38 => some .opClass
  | 39 => some .opInherit
  | 40 => some .opMethod
  | _ => none

def codeAt (fn : FunctionO) (i : Nat) : Option Nat :=
  fn.chunk.code[i]?

/-- Reads a constant (`byte_read_constant`); `none` = index past the
constants pool (C reads garbage). -/
def constAt (fn : FunctionO) (k : Nat) : Option Value :=
  fn.chunk.constants[k]?

/-- Reads a string constant (`byte_read_string`, an `obj_as_string`
cast); `none` = the constant is not a string object. -/
def stringConst (heap : List Obj) (fn : FunctionO) (k : Nat) : Option String :=
  match constAt fn k with
  | some (.obj r) =>
      match heap[r]? with
      | some (.string s) => some s
      | _ => none
  | _ => none

/-- Commits the current frame with its instruction pointer advanced to
`ip` (the C advances `frame->ip` through a pointer at each operand
read). -/
def commitIp (vm : VM) (f : Frame) (ip : Nat) : VM :=
  withFrame vm { f with ip := ip }

/-- Shared body of the `binary_op` macro for GREATER/LESS/SUBTRACT/
MULTIPLY/DIVIDE (vm.c lines 391–403). -/
def exec_binary (vm : VM) (mk : ℚ → ℚ → Value) : StepOut :=
  if ¬ value_is_number (vm_stack_peek vm 0) ∨ ¬ value_is_number (vm_stack_peek vm 1) then
    .halt .runtimeError (raise_runtime_error vm "Operand must be numbers.")
  else
    let pb := vm_stack_pop vm
    let pa := vm_stack_pop pb.2
    .next (vm_stack_push pa.2 (mk (value_as_number pa.1) (value_as_number pb.1)))

/-- Loop of OP_CLOSURE filling the new closure's upvalue array: for each
of `n` entries read `(is_local, index)` from the enclosing function's
code at `i`, capturing a stack slot or forwarding the enclosing
closure's upvalue.  Returns the refs, the VM and the final ip. -/
def closureUpvs (fnEncl : FunctionO) (encl : List Ref) (slots : Int) :
    Nat → Nat → VM → Option (List Ref × VM × Nat)
  | 0, i, vm => some ([], vm, i)
  | n + 1, i, vm =>
      match codeAt fnEncl i, codeAt fnEncl (i + 1) with
      | some isLocal, some idx =>
          if isLocal ≠ 0 then
            match upvalue_capture vm (slots + idx) with
            | none => none
            | some (r, vm') =>
                match closureUpvs fnEncl encl slots n (i + 2) vm' with
                | none => none
                | some (rs, vm'', j) => some (r :: rs, vm'', j)
          else
            match encl[idx]? with
            | none => none
            | some r =>
                match closureUpvs fnEncl encl slots n (i + 2) vm with
                | none => none
                | some (rs, vm'', j) => some (r :: rs, vm'', j)
      | _, _ => none

/-- Executes one decoded instruction.  `f` is the current frame with `ip`
already advanced past the opcode byte; `fn` its function; `ups` the
current closure's upvalue array.  Transcribes the switch of `run`
(vm.c lines 405–864) case by case. -/
def execOp (vm : VM) (f : Frame) (fn : FunctionO) (ups : List Ref) : OpCode → StepOut
  | .opConstant =>
      match codeAt fn f.ip with
      | none => .ub vm
      | some k =>
          match constAt fn k with
          | none => .ub vm
          | some c => .next (vm_stack_push (commitIp vm f (f.ip + 1)) c)
  | .opNil => .next (vm_stack_push (commitIp vm f f.ip) .nil)
  | .opTrue => .next (vm_stack_push (commitIp vm f f.ip) (.bool true))
  | .opFalse => .next (vm_stack_push (commitIp vm f f.ip) (.bool false))
  | .opPop => .next (vm_stack_pop (commitIp vm f f.ip)).2
  | .opGetLocal =>
      match codeAt fn f.ip with
      | none => .ub vm
      | some slot =>
          let vmC := commitIp vm f (f.ip + 1)
          .next (vm_stack_push vmC (vmC.stack (f.slots + slot)))
  | .opSetLocal =>
      match codeAt fn f.ip with
      | none => .ub vm
      | some slot =>
          let vmC := commitIp vm f (f.ip + 1)
          .next (stackWrite vmC (f.slots + slot) (vm_stack_peek vmC 0))
  | .opGetGlobal =>
      match codeAt fn f.ip with
      | none => .ub vm
      | some k =>
          match stringConst vm.heap fn k with
          | none => .ub vm
          | some name =>
              let vmC := commitIp vm f (f.ip + 1)
              match table_get vmC.globals name with
              | none =>
                  .halt .runtimeError (raise_runtime_error vmC
                    ("Undefined symbol " ++ sqs ++ name ++ sqs ++ "."))
              | some v => .next (vm_stack_push vmC v)
  | .opDefineGlobal =>
      match codeAt fn f.ip with
      | none => .ub vm
      | some k =>
          match stringConst vm.heap fn k with
          | none => .ub vm
          | some name =>
              let vmC := commitIp vm f (f.ip + 1)
              let vm1 := { vmC with globals := (table_set vmC.globals name (vm_stack_peek vmC 0)).1 }
              .next (vm_stack_pop vm1).2
  | .opSetGlobal =>
      match codeAt fn f.ip with
      | none => .ub vm
      | some k =>
          match stringConst vm.heap fn k with
          | none => .ub vm
          | some name =>
              let vmC := commitIp vm f (f.ip + 1)
              let ts := table_set vmC.globals name (vm_stack_peek vmC 0)
              if ts.2 then
                .halt .runtimeError (raise_runtime_error
                  { vmC with globals := table_delete ts.1 name }
                  ("Undefined variable " ++ sqs ++ name ++ sqs ++ "."))
              else
                .next { vmC with globals := ts.1 }
  | .opGetUpvalue =>
      match codeAt fn f.ip with
      | none => .ub vm
      | some slot =>
          match ups[slot]? with
          | none => .ub vm
          | some uvRef =>
              let vmC := commitIp vm f (f.ip + 1)
              match vmC.heap[uvRef]? with
              | some (.upvalue (.open_ l)) => .next (vm_stack_push vmC (vmC.stack l))
              | some (.upvalue (.closed v)) => .next (vm_stack_push vmC v)
              | _ => .ub vm
  | .opSetUpvalue =>
      match codeAt fn f.ip with
      | none => .ub vm
      | some slot =>
          match ups[slot]? with
          | none => .ub vm
          | some uvRef =>
              let vmC := commitIp vm f (f.ip + 1)
              match vmC.heap[uvRef]? with
              | some (.upvalue (.open_ l)) =>
                  .next (stackWrite vmC l (vm_stack_peek vmC 0))
              | some (.upvalue (.closed _)) =>
                  .next { vmC with
                    heap := heapSet vmC.heap uvRef (.upvalue (.closed (vm_stack_peek vmC 0))) }
              | _ => .ub vm
  | .opGetProperty =>
      let vmC := commitIp vm f f.ip
      if ¬ obj_is_instance vmC.heap (vm_stack_peek vmC 0) then
        .halt .runtimeError (raise_runtime_error vmC "Only instances have properties.")
      else
        match codeAt fn f.ip with
        | none => .ub vm
        | some k =>
            match stringConst vm.heap fn k with
            | none => .ub vm
            | some name =>
                let vmD := commitIp vm f (f.ip + 1)
                match vm_stack_peek vmD 0 with
                | .obj r =>
                    match vmD.heap[r]? with
                    | some (.inst clsRef fields) =>
                        match table_get fields name with
                        | some v => .next (vm_stack_push (vm_stack_pop vmD).2 v)
                        | none =>
                            match bind_method vmD clsRef name with
                            | none => .ub vmD
                            | some (false, s) => .halt .runtimeError s
                            | some (true, s) => .next s
                    | _ => .ub vmD
                | _ => .ub vmD
  | .opSetProperty =>
      let vmC := commitIp vm f f.ip
      if ¬ obj_is_instance vmC.heap (vm_stack_peek vmC 1) then
        .halt .runtimeError (raise_runtime_error vmC "Only instances have fields.")
      else
        match codeAt fn f.ip with
        | none => .ub vm
        | some k =>
            match stringConst vm.heap fn k with
            | none => .ub vm
            | some name =>
                let vmD := commitIp vm f (f.ip + 1)
                match vm_stack_peek vmD 1 with
                | .obj r =>
                    match vmD.heap[r]? with
                    | some (.inst clsRef fields) =>
                        let vm1 := { vmD with
                          heap := heapSet vmD.heap r
                            (.inst clsRef (table_set fields name (vm_stack_peek vmD 0)).1) }
                        let p1 := vm_stack_pop vm1
                        let p2 := vm_stack_pop p1.2
                        .next (vm_stack_push p2.2 p1.1)
                    | _ => .ub vmD
                | _ => .ub vmD
  | .opGetSuper =>
      match codeAt fn f.ip with
      | none => .ub vm
      | some k =>
          match stringConst vm.heap fn k with
          | none => .ub vm
          | some name =>
              let vmC := commitIp vm f (f.ip + 1)
              let psc := vm_stack_pop vmC
              match psc.1 with
              | .obj scr =>
                  match bind_method psc.2 scr name with
                  | none => .ub vm
                  | some (false, s) => .halt .runtimeError s
                  | some (true, s) => .next s
              | _ => .ub vm
  | .opEqual =>
      let vmC := commitIp vm f f.ip
      let pb := vm_stack_pop vmC
      let pa := vm_stack_pop pb.2
      .next (vm_stack_push pa.2 (.bool (value_check_equality pa.1 pb.1)))
  | .opGreater => exec_binary (commitIp vm f f.ip) (fun a b => .bool (decide (a > b)))
  | .opLess => exec_binary (commitIp vm f f.ip) (fun a b => .bool (decide (a < b)))
  | .opAdd =>
      let vmC := commitIp vm f f.ip
      if obj_is_string vmC.heap (vm_stack_peek vmC 0) ∧
         obj_is_string vmC.heap (vm_stack_peek vmC 1) then
        match string_concat vmC with
        | none => .ub vmC
        | some s => .next s
      else if value_is_number (vm_stack_peek vmC 0) ∧
              value_is_number (vm_stack_peek vmC 1) then
        let pb := vm_stack_pop vmC
        let pa := vm_stack_pop pb.2
        .next (vm_stack_push pa.2 (.number (value_as_number pa.1 + value_as_number pb.1)))
      else
        .halt .runtimeError (raise_runtime_error vmC
          "Operands must be two numbers or two strings.")
  | .opSubtract => exec_binary (commitIp vm f f.ip) (fun a b => .number (a - b))
  | .opMultiply => exec_binary (commitIp vm f f.ip) (fun a b => .number (a * b))
  | .opDivide => exec_binary (commitIp vm f f.ip) (fun a b => .number (a / b))
  | .opNot =>
      let vmC := commitIp vm f f.ip
      let p := vm_stack_pop vmC
      .next (vm_stack_push p.2 (.bool (value_is_falsy p.1)))
  | .opNegate =>
      let vmC := commitIp vm f f.ip
      if value_is_number (vm_stack_peek vmC 0) then
        .halt .runtimeError (raise_runtime_error vmC "Operand must be a number")
      else
        .ub vmC
  | .opPrint =>
      let vmC := commitIp vm f f.ip
      let p := vm_stack_pop vmC
      .next { p.2 with stdoutLog := p.2.stdoutLog ++ [.val p.1] }
  | .opPrintln =>
      let vmC := commitIp vm f f.ip
      let p := vm_stack_pop vmC
      .next { p.2 with stdoutLog := p.2.stdoutLog ++ [.val p.1, .newline] }
  | .opJump =>
      match codeAt fn f.ip, codeAt fn (f.ip + 1) with
      | some b1, some b2 => .next (commitIp vm f (f.ip + 2 + (b1 * 256 + b2)))
      | _, _ => .ub vm
  | .opJumpIfFalse =>
      match codeAt fn f.ip, codeAt fn (f.ip + 1) with
      | some b1, some b2 =>
          if value_is_falsy (vm_stack_peek vm 0) then
            .next (commitIp vm f (f.ip + 2 + (b1 * 256 + b2)))
          else
            .next (commitIp vm f (f.ip + 2))
      | _, _ => .ub vm
  | .opLoop =>
      match codeAt fn f.ip, codeAt fn (f.ip + 1) with
      | some b1, some b2 => .next (commitIp vm f (f.ip + 2 - (b1 * 256 + b2)))
      | _, _ => .ub vm
  | .opCall =>
      match codeAt fn f.ip with
      | none => .ub vm
      | some argc =>
          let vmC := commitIp vm f (f.ip + 1)
          match value_call vmC (vm_stack_peek vmC argc) argc with
          | none => .ub vmC
          | some (false, s) => .halt .runtimeError s
          | some (true, s) => .next s
  | .opInvoke =>
      match codeAt fn f.ip with
      | none => .ub vm
      | some k =>
          match stringConst vm.heap fn k with
          | none => .ub vm
          | some name =>
              match codeAt fn (f.ip + 1) with
              | none => .ub vm
              | some argc =>
                  let vmC := commitIp vm f (f.ip + 2)
                  match invoke vmC name argc with
                  | none => .ub vmC
                  | some (false, s) => .halt .runtimeError s
                  | some (true, s) => .next s
  | .opSuperInvoke =>
      match codeAt fn f.ip with
      | none => .ub vm
      | some k =>
          match stringConst vm.heap fn k with
          | none => .ub vm
          | some name =>
              match codeAt fn (f.ip + 1) with
              | none => .ub vm
              | some argc =>
                  let vmC := commitIp vm f (f.ip + 2)
                  let psc := vm_stack_pop vmC
                  match psc.1 with
                  | .obj scr =>
                      match invoke_from_class psc.2 scr name argc with
                      | none => .ub vm
                      | some (false, s) => .halt .runtimeError s
                      | some (true, s) => .next s
                  | _ => .ub vm
  | .opClosure =>
      match codeAt fn f.ip with
      | none => .ub vm
      | some k =>
          match constAt fn k with
          | some (.obj fr) =>
              match vm.heap[fr]? with
              | some (.function ffn) =>
                  let cRef := vm.heap.length
                  let vm1 := { vm with heap := vm.heap ++ [.closure fr []] }
                  let vm2 := vm_stack_push vm1 (.obj cRef)
                  match closureUpvs fn ups f.slots ffn.upvalue_count (f.ip + 1) vm2 with
                  | none => .ub vm2
                  | some (rs, vm3, j) =>
                      let vm4 := { vm3 with heap := heapSet vm3.heap cRef (.closure fr rs) }
                      .next (commitIp vm4 f j)
              | _ => .ub vm
          | _ => .ub vm
  | .opCloseUpvalue =>
      let vmC := commitIp vm f f.ip
      match upvalue_close_until vmC (vmC.top - 1) with
      | none => .ub vmC
      | some vm1 => .next (vm_stack_pop vm1).2
  | .opListInit =>
      match codeAt fn f.ip with
      | none => .ub vm
      | some n =>
          let vmC := commitIp vm f (f.ip + 1)
          let ref := vmC.heap.length
          let vm1 := { vmC with heap := vmC.heap ++ [.list []] }
          let vm2 := vm_stack_push vm1 (.obj ref)
          let items := (List.range n).map (fun j => vm_stack_peek vm2 (n - j))
          let vm3 := { vm2 with heap := heapSet vm2.heap ref (.list items) }
          let vm4 := (vm_stack_pop vm3).2
          let vm5 := { vm4 with top := vm4.top - n }
          .next (vm_stack_push vm5 (.obj ref))
  | .opListGetIdx =>
      let vmC := commitIp vm f f.ip
      let pidx := vm_stack_pop vmC
      let plst := vm_stack_pop pidx.2
      let vmA := plst.2
      if ¬ obj_as_list_nonnull plst.1 then
        .halt .runtimeError (raise_runtime_error vmA "Invalid type to index into.")
      else if ¬ value_is_number pidx.1 then
        .halt .runtimeError (raise_runtime_error vmA "List index is not a number.")
      else
        match obj_as_list vmA.heap plst.1 with
        | none => .ub vmA
        | some items =>
            let idx := double_to_int (value_as_number pidx.1)
            if ¬ obj_list_is_valid_index items idx then
              .halt .runtimeError (raise_runtime_error vmA "List index out of range")
            else
              .next (vm_stack_push vmA (obj_list_get items idx))
  | .opListSetIdx =>
      let vmC := commitIp vm f f.ip
      let pitem := vm_stack_pop vmC
      let pidx := vm_stack_pop pitem.2
      let plst := vm_stack_pop pidx.2
      let vmA := plst.2
      if ¬ obj_as_list_nonnull plst.1 then
        .halt .runtimeError (raise_runtime_error vmA "Invalid type to index into.")
      else if ¬ value_is_number pidx.1 then
        .halt .runtimeError (raise_runtime_error vmA "List index is not a number.")
      else
        match plst.1, obj_as_list vmA.heap plst.1 with
        | .obj lr, some items =>
            let idx := double_to_int (value_as_number pidx.1)
            if ¬ obj_list_is_valid_index items idx then
              .halt .runtimeError (raise_runtime_error vmA "List index out of range")
            else
              let vm1 := { vmA with
                heap := heapSet vmA.heap lr (.list (obj_list_set items idx pitem.1)) }
              .next (vm_stack_push vm1 pitem.1)
        | _, _ => .ub vmA
  | .opReturn =>
      let vmC := commitIp vm f f.ip
      let pres := vm_stack_pop vmC
      match upvalue_close_until pres.2 f.slots with
      | none => .ub vmC
      | some vmB =>
          let frames' := vmB.frames.dropLast
          if frames' = [] then
            .halt .ok (vm_stack_pop { vmB with frames := [] }).2
          else
            .next (vm_stack_push { vmB with frames := frames', top := f.slots } pres.1)
  | .opClass =>
      match codeAt fn f.ip with
      | none => .ub vm
      | some k =>
          match stringConst vm.heap fn k with
          | none => .ub vm
          | some name =>
              let vmC := commitIp vm f (f.ip + 1)
              let ref := vmC.heap.length
              let vm1 := { vmC with heap := vmC.heap ++ [.cls name []] }
              .next (vm_stack_push vm1 (.obj ref))
  | .opInherit =>
      let vmC := commitIp vm f f.ip
      if ¬ obj_is_class vmC.heap (vm_stack_peek vmC 1) then
        .halt .runtimeError (raise_runtime_error vmC "Superclass must be a class.")
      else
        match vm_stack_peek vmC 1, vm_stack_peek vmC 0 with
        | .obj spr, .obj sbr =>
            match vmC.heap[spr]?, vmC.heap[sbr]? with
            | some (.cls spn spMethods), some (.cls _ sbMethods) =>
                let vm1 := { vmC with
                  heap := heapSet vmC.heap spr (.cls spn (table_append spMethods sbMethods)) }
                .next (vm_stack_pop vm1).2
            | _, _ => .ub vmC
        | _, _ => .ub vmC
  | .opMethod =>
      match codeAt fn f.ip with
      | none => .ub vm
      | some k =>
          match stringConst vm.heap fn k with
          | none => .ub vm
          | some name =>
              let vmC := commitIp vm f (f.ip + 1)
              match define_method vmC name with
              | none => .ub vmC
              | some vm1 => .next vm1

/-- One iteration of `run`'s dispatch loop (vm.c lines 405–864): fetch
the current frame, its closure and function, read the opcode byte and
execute it.  A byte that matches no opcode case falls out of the C
switch and merely advances (the switch has no default). -/
def run_step (vm : VM) : StepOut :=
  match vm.frames.getLast? with
  | none => .ub vm
  | some f =>
      match vm.heap[f.closure]? with
      | some (.closure fnRef ups) =>
          match vm.heap[fnRef]? with
          | some (.function fn) =>
              match codeAt fn f.ip with
              | none => .ub vm
              | some b =>
                  match decodeOp b with
                  | some op => execOp vm { f with ip := f.ip + 1 } fn ups op
                  | none => .next (commitIp vm f (f.ip + 1))
          | _ => .ub vm
      | _ => .ub vm

/-- Stack-array builder for concrete machines: slot i holds the i-th
listed value, every other slot nil. -/
def mkStack (vals : List Value) : Int → Value :=
  fun i => if 0 ≤ i then vals.getD i.toNat .nil else .nil

/-- Concrete machine builder: a single script frame whose closure is
heap slot 1 over the function at heap slot 0; further objects follow. -/
def mkVM (code : List Nat) (constants : List Value) (extraHeap : List Obj)
    (stackVals : List Value) : VM :=
  { stack := mkStack stackVals,
    top := stackVals.length,
    frames := [⟨1, 0, 0⟩],
    globals := [],
    openUpvalues := [],
    heap := [.function ⟨0, 0, ⟨code, constants, List.replicate code.length 1⟩, none⟩,
             .closure 0 []] ++ extraHeap,
    stderrLog := [],
    stdoutLog := [] }

/-- Machine about to run OP_NEGATE with the number 3 on top of the stack. -/
def vmNegNum : VM :=
  mkVM [23] [] [] [.number 3]

/-- Machine about to run OP_INHERIT with class A (methods {greet}) at
peek(1) and class B (no methods) at peek(0).  Heap: 2 = the greet
closure, 3 = A, 4 = B. -/
def vmInh : VM :=
  mkVM [39] [] [.closure 0 [], .cls "A" [("greet", .obj 2)], .cls "B" []]
    [.obj 3, .obj 4]

/-- Machine about to run OP_CALL argc=1 on the native `length` (heap 2)
with a non-list argument, so the native raises a runtime error. -/
def vmNatErr : VM :=
  mkVM [29, 1] [] [.native .length] [.obj 2, .number 5]

/-- Second machine of the same shape (OP_CALL of `length` on a number),
used for the stack-bound claim. -/
def vmNatUnder : VM :=
  mkVM [29, 1] [] [.native .length] [.obj 2, .number 5]

/-- Machine about to run OP_LIST_GETIDX where the indexed value is a
String object (heap 2) and the index is the number 0. -/
def vmGetIdxStr : VM :=
  mkVM [35] [] [.string "hi"] [.obj 2, .number 0]

/-- Method table of the class object at a reference. -/
def classMethods (vm : VM) (r : Ref) : Option Table :=
  match vm.heap[r]? with
  | some (.cls _ ms) => some ms
  | _ => none

/-- Locations of the open-upvalue list entries, in list order; `none`
when some entry is not an open upvalue object. -/
def openLocs (heap : List Obj) : List Ref → Option (List Int)
  | [] => some []
  | r :: rest =>
      match locOf heap r with
      | none => none
      | some l => (openLocs heap rest).map (l :: ·)

/-- Well-formedness of the open-upvalue list: every entry is a valid
reference to an open upvalue, and the locations are strictly
decreasing in list order (spec §3 invariant / §8 invariant (c)). -/
def UpvListWF (heap : List Obj) (l : List Ref) : Prop :=
  (∀ r ∈ l, r < heap.length) ∧
  ∃ ls, openLocs heap l = some ls ∧ ls.Pairwise (· > ·)

/-- State after the OP_CLASS callee slot rewrite of `value_call`: the
heap grows by a fresh instance of the class and the would-be frame's
slot 0 now holds it. -/
def vmAfterInstance (vm : VM) (clsRef : Ref) (argc : Nat) : VM :=
  stackWrite { vm with heap := vm.heap ++ [.inst clsRef []] }
    (vm.top - argc - 1) (.obj vm.heap.length)

/-- Machine about to run OP_SET_GLOBAL on the defined global "x". -/
def vmSetG : VM :=
  { mkVM [9, 0] [.obj 2] [.string "x"] [.number 2] with globals := [("x", .number 1)] }

/-- Machine about to run OP_SET_GLOBAL on an undefined global "x". -/
def vmSetGU : VM :=
  mkVM [9, 0] [.obj 2] [.string "x"] [.number 2]

/-- Machine used to exercise `value_call` on a class with no "init":
heap 2 is class C with no methods, the stack holds only the callee. -/
def vmClsCall : VM :=
  mkVM [] [] [.cls "C" []] [.obj 2]

/-- Machine with one open upvalue (heap 2, location 5) on the list. -/
def vmUpv : VM :=
  { mkVM [] [] [.upvalue (.open_ 5)] [] with openUpvalues := [2] }

/-- Machine about to run OP_CALL argc=1 on the native `length` with a
number argument (exercises the native error path of `value_call`). -/
def vmNatCall : VM :=
  mkVM [29, 1] [] [.native .length] [.obj 2, .number 5]

/-- Bare machine used as ambient state for native-function witnesses. -/
def vmPlain : VM :=
  mkVM [] [] [] []

theorem table_get_set_self (t : Table) (k : String) (v : Value) :
    table_get (table_set t k v).1 k = some v := by
  induction t with
  | nil => simp [table_set, table_get]
  | cons hd tl ih =>
      by_cases h : hd.1 = k
      · simp [table_set, table_get, h]
      · simp [table_set, table_get, h, ih]

theorem table_get_set_ne (t : Table) (k k2 : String) (v : Value) (h : k2 ≠ k) :
    table_get (table_set t k v).1 k2 = table_get t k2 := by
  induction t with
  | nil => simp [table_set, table_get, Ne.symm h]
  | cons hd tl ih =>
      by_cases h1 : hd.1 = k
      · simp [table_set, table_get, h1, Ne.symm h]
      · by_cases h2 : hd.1 = k2
        · simp [table_set, table_get, h1, h2, h]
        · simp [table_set, table_get, h1, h2, ih]

theorem table_set_snd_of_get_none (t : Table) (k : String) (v : Value)
    (h : table_get t k = none) : (table_set t k v).2 = true := by
  induction t with
  | nil => simp [table_set]
  | cons hd tl ih =>
      by_cases h1 : hd.1 = k
      · simp [table_get, h1] at h
      · simp [table_get, h1] at h
        simp [table_set, h1, ih h]

theorem table_set_snd_of_get_some (t : Table) (k : String) (v w : Value)
    (h : table_get t k = some w) : (table_set t k v).2 = false := by
  induction t with
  | nil => simp [table_get] at h
  | cons hd tl ih =>
      by_cases h1 : hd.1 = k
      · simp [table_set, h1]
      · simp [table_get, h1] at h
        simp [table_set, h1, ih h]

theorem table_delete_set_of_get_none (t : Table) (k : String) (v : Value)
    (h : table_get t k = none) : table_delete (table_set t k v).1 k = t := by
  induction t with
  | nil => simp [table_set, table_delete]
  | cons hd tl ih =>
      by_cases h1 : hd.1 = k
      · simp [table_get, h1] at h
      · simp [table_get, h1] at h
        simp [table_set, table_delete, h1, ih h]

theorem commitIp_stack (vm : VM) (f : Frame) (i : Nat) : (commitIp vm f i).stack = vm.stack := rfl
theorem commitIp_top (vm : VM) (f : Frame) (i : Nat) : (commitIp vm f i).top = vm.top := rfl
theorem commitIp_globals (vm : VM) (f : Frame) (i : Nat) : (commitIp vm f i).globals = vm.globals := rfl
theorem commitIp_heap (vm : VM) (f : Frame) (i : Nat) : (commitIp vm f i).heap = vm.heap := rfl
theorem commitIp_stderr (vm : VM) (f : Frame) (i : Nat) : (commitIp vm f i).stderrLog = vm.stderrLog := rfl
theorem peek_commitIp (vm : VM) (f : Frame) (i : Nat) (d : Nat) :
    vm_stack_peek (commitIp vm f i) d = vm_stack_peek vm d := rfl
theorem raise_globals (vm : VM) (m : String) :
    (raise_runtime_error vm m).globals = vm.globals := rfl
theorem raise_top (vm : VM) (m : String) : (raise_runtime_error vm m).top = 0 := rfl
theorem raise_frames (vm : VM) (m : String) : (raise_runtime_error vm m).frames = [] := rfl
theorem raise_stderr (vm : VM) (m : String) :
    (raise_runtime_error vm m).stderrLog = vm.stderrLog ++ .msg m :: stackTrace vm := rfl

/-- C5: for OP_SET_GLOBAL with name n, an undefined n has the
just-inserted entry removed again (globals exactly as before), the
runtime error "Undefined variable 'n'." is raised and the step halts
with runtime_error; a defined n is updated to the top-of-stack value,
which stays on the stack. -/
theorem set_global_checks_definedness
    (vm : VM) (f : Frame) (fnRef : Ref) (ups : List Ref) (fn : FunctionO) (k : Nat) (name : String)
    (hf : vm.frames.getLast? = some f)
    (hcl : vm.heap[f.closure]? = some (.closure fnRef ups))
    (hfn : vm.heap[fnRef]? = some (.function fn))
    (hop : codeAt fn f.ip = some 9)
    (hk : codeAt fn (f.ip + 1) = some k)
    (hstr : stringConst vm.heap fn k = some name) :
    (table_get vm.globals name = none →
      ∃ s, run_step vm = .halt .runtimeError s ∧ s.globals = vm.globals ∧
        (∃ t, s.stderrLog = vm.stderrLog ++
          .msg ("Undefined variable " ++ sqs ++ name ++ sqs ++ ".") :: t) ∧
        s.top = 0 ∧ s.frames = []) ∧
    (∀ w, table_get vm.globals name = some w →
      ∃ s, run_step vm = .next s ∧
        table_get s.globals name = some (vm_stack_peek vm 0) ∧
        (∀ k2, k2 ≠ name → table_get s.globals k2 = table_get vm.globals k2) ∧
        s.top = vm.top ∧ s.stack = vm.stack ∧ s.stderrLog = vm.stderrLog) := by
  have hstep : run_step vm = execOp vm { f with ip := f.ip + 1 } fn ups .opSetGlobal := by
    simp [run_step, hf, hcl, hfn, hop, decodeOp]
  constructor
  · intro hnone
    have h2 : (table_set vm.globals name (vm_stack_peek vm 0)).2 = true :=
      table_set_snd_of_get_none _ _ _ hnone
    rw [hstep]
    simp only [execOp, hk, hstr, commitIp_globals, peek_commitIp, h2, if_true]
    refine ⟨_, rfl, ?_, ?_, rfl, rfl⟩
    · simp [raise_globals, table_delete_set_of_get_none _ _ _ hnone, commitIp_globals]
    · exact ⟨_, rfl⟩
  · intro w hsome
    have h2 : (table_set vm.globals name (vm_stack_peek vm 0)).2 = false :=
      table_set_snd_of_get_some _ _ _ _ hsome
    rw [hstep]
    simp only [execOp, hk, hstr, commitIp_globals, peek_commitIp, h2, Bool.false_eq_true,
      if_false]
    refine ⟨_, rfl, ?_, ?_, rfl, rfl, rfl⟩
    · exact table_get_set_self _ _ _
    · intro k2 hk2
      exact table_get_set_ne _ _ _ _ hk2


/-- Witness for C5: concrete OP_SET_GLOBAL steps on an undefined and on
a defined global "x". -/
theorem set_global_checks_definedness_witness :
    (∃ s, run_step vmSetGU = .halt .runtimeError s ∧ s.globals = vmSetGU.globals ∧
      (∃ t, s.stderrLog = vmSetGU.stderrLog ++
        .msg ("Undefined variable " ++ sqs ++ "x" ++ sqs ++ ".") :: t) ∧
      s.top = 0 ∧ s.frames = []) ∧
    (∃ s, run_step vmSetG = .next s ∧
      table_get s.globals "x" = some (vm_stack_peek vmSetG 0) ∧
      (∀ k2, k2 ≠ "x" → table_get s.globals k2 = table_get vmSetG.globals k2) ∧
      s.top = vmSetG.top ∧ s.stack = vmSetG.stack ∧ s.stderrLog = vmSetG.stderrLog) :=
  ⟨(set_global_checks_definedness vmSetGU ⟨1, 0, 0⟩ 0 [] _ 0 "x"
      rfl rfl rfl rfl rfl rfl).1 rfl,
   (set_global_checks_definedness vmSetG ⟨1, 0, 0⟩ 0 [] _ 0 "x"
      rfl rfl rfl rfl rfl rfl).2 (.number 1) rfl⟩

/-- C1: OP_NEGATE with the number 3 on top of the stack raises
"Operand must be a number" and halts with runtime_error instead of
pushing number(-3) — the vm.c line 634 test `if (value_is_number(...))`
is inverted, so the claimed behavior fails exactly on number operands
(the non-number branch falls into a type-confused union read). -/
theorem negate_raises_on_number_operand :
    (run_step vmNegNum).isHaltRE = true ∧
    (run_step vmNegNum).state.stderrLog =
      [.msg "Operand must be a number", .trace 1 none] ∧
    (run_step vmNegNum).state.top = 0 ∧
    vm_stack_peek vmNegNum 0 = .number 3 := by
  decide

/-- C2: OP_INHERIT with class A = {greet} at peek(1) and class B = {}
at peek(0) leaves B's method table empty (greet is not copied into B;
the entries flow from the subclass into the superclass instead), even
though B is popped and A remains on the stack as the claim states. -/
theorem inherit_copies_into_superclass :
    (run_step vmInh).isNext = true ∧
    classMethods (run_step vmInh).state 4 = some [] ∧
    classMethods (run_step vmInh).state 3 = some [("greet", .obj 2)] ∧
    (run_step vmInh).state.top = 1 ∧
    vm_stack_peek (run_step vmInh).state 0 = .obj 3 ∧
    classMethods vmInh 3 = some [("greet", .obj 2)] ∧
    classMethods vmInh 4 = some [] := by
  decide

/-- C3: a runtime error raised inside the native `length` (called on a
non-list) does not terminate the interpret call: the step continues
(`next`, not a runtime_error halt) although the error message and trace
were printed and the stacks were reset. -/
theorem native_error_continues_executing :
    (run_step vmNatErr).isNext = true ∧
    (run_step vmNatErr).isHaltRE = false ∧
    (run_step vmNatErr).state.stderrLog =
      [.msg "cannot get length of a non-list variable.", .trace 1 none] ∧
    vmNatErr.stderrLog = [] := by
  decide

/-- C4: OP_LIST_GETIDX on a String object with index number 0 raises no
runtime error at all — the `!obj_as_list(list)` pointer-truthiness check
passes for every heap object, and execution runs into the undefined
reinterpretation of the string as a list instead of halting with the
claimed error. -/
theorem list_getidx_non_list_object_no_error :
    (run_step vmGetIdxStr).isUB = true ∧
    (run_step vmGetIdxStr).isHaltRE = false ∧
    (run_step vmGetIdxStr).state.stderrLog = [] ∧
    obj_is_list vmGetIdxStr.heap (vm_stack_peek vmGetIdxStr 1) = false := by
  decide

/-- C6: after OP_CALL of the native `length` whose call raises a runtime
error, `stack_top` sits one slot *below* the stack base (top = -1), so
the invariant 0 ≤ stack_top − stack fails: the native reset the stack,
then value_call still subtracted argc+1 and pushed the result. -/
theorem native_error_stack_underflow :
    (run_step vmNatUnder).isNext = true ∧
    (run_step vmNatUnder).state.top = -1 ∧
    ¬ (0 ≤ (run_step vmNatUnder).state.top) := by
  decide

theorem argsRead_commitIp (vm : VM) (f : Frame) (i : Nat) (argc : Nat) :
    argsRead (commitIp vm f i) argc = argsRead vm argc := rfl

theorem vm_stack_push_read_top (vm : VM) (v : Value) :
    (vm_stack_push vm v).stack ((vm_stack_push vm v).top - 1) = v := by
  simp [vm_stack_push]

theorem runNative_cases (id : NativeId) (argc : Nat) (args : List Value) (vm : VM) :
    (∃ m, runNative id argc args vm = (.nil, raise_runtime_error vm m)) ∨
    (runNative id argc args vm).2.stderrLog = vm.stderrLog := by
  cases id
  case clock => exact .inr rfl
  case length =>
    simp only [runNative]
    unfold native_fn_list_length
    split
    · exact .inl ⟨_, rfl⟩
    · split
      · exact .inl ⟨_, rfl⟩
      · split <;> exact .inr rfl
  case append =>
    simp only [runNative]
    unfold native_fn_list_append
    split
    · exact .inl ⟨_, rfl⟩
    · split
      · exact .inl ⟨_, rfl⟩
      · split <;> exact .inr rfl
  case delete =>
    simp only [runNative]
    unfold native_fn_list_delete
    split
    · exact .inl ⟨_, rfl⟩
    · split
      · exact .inl ⟨_, rfl⟩
      · split
        · exact .inl ⟨_, rfl⟩
        · split
          · dsimp only
            split
            · exact .inl ⟨_, rfl⟩
            · exact .inr rfl
          · exact .inr rfl

/-- C7: calling a Class value replaces the would-be frame's slot 0 with
a fresh Instance of the class; when the method table has "init" (as a
closure object) that closure is called with argc arguments on the new
instance; without "init", argc different from 0 raises
"Expected 0 argument but got argc." (value_call returns false), and
argc = 0 succeeds leaving the new instance on the stack. -/
theorem class_call_behavior
    (vm : VM) (r : Ref) (cn : String) (ms : Table) (argc : Nat)
    (hcls : vm.heap[r]? = some (.cls cn ms)) :
    vm.heap[vm.heap.length]? = none ∧
    (vmAfterInstance vm r argc).stack (vm.top - argc - 1) = .obj vm.heap.length ∧
    (vmAfterInstance vm r argc).heap[vm.heap.length]? = some (.inst r []) ∧
    (∀ ir, table_get ms init_str = some (.obj ir) →
      value_call vm (.obj r) argc = obj_func_call (vmAfterInstance vm r argc) ir argc) ∧
    (table_get ms init_str = none → argc ≠ 0 →
      ∃ s, value_call vm (.obj r) argc = some (false, s) ∧
        (∃ t, s.stderrLog = vm.stderrLog ++
          .msg ("Expected 0 argument but got " ++ toString argc ++ ".") :: t) ∧
        s.top = 0 ∧ s.frames = []) ∧
    (table_get ms init_str = none → argc = 0 →
      value_call vm (.obj r) argc = some (true, vmAfterInstance vm r 0) ∧
      vm_stack_peek (vmAfterInstance vm r 0) 0 = .obj vm.heap.length) := by
  refine ⟨?_, ?_, ?_, ?_, ?_, ?_⟩
  · simp
  · simp [vmAfterInstance, stackWrite]
  · simp [vmAfterInstance, stackWrite]
  · intro ir hinit
    simp only [value_call, hcls, hinit]
    rfl
  · intro hnone hargc
    have hcall : value_call vm (.obj r) argc = some (false,
        raise_runtime_error (vmAfterInstance vm r argc)
          ("Expected 0 argument but got " ++ toString argc ++ ".")) := by
      simp only [value_call, hcls, hnone]
      rw [if_pos hargc]
      rfl
    exact ⟨_, hcall, ⟨_, rfl⟩, rfl, rfl⟩
  · intro hnone hz
    subst hz
    constructor
    · simp only [value_call, hcls, hnone]
      rfl
    · simp [vmAfterInstance, stackWrite, vm_stack_peek]

/-- C10: the native `delete` called with argument count 2 and a
non-list first argument returns nil and raises
"cannot append item to non-list variable." — the identical output (and
message wording) of `append` on the same arguments. -/
theorem delete_non_list_message_matches_append
    (vm : VM) (a b : Value) (h : obj_is_list vm.heap a = false) :
    native_fn_list_delete 2 [a, b] vm =
      (.nil, raise_runtime_error vm "cannot append item to non-list variable.") ∧
    native_fn_list_delete 2 [a, b] vm = native_fn_list_append 2 [a, b] vm ∧
    (native_fn_list_delete 2 [a, b] vm).2.stderrLog = vm.stderrLog ++
      .msg "cannot append item to non-list variable." :: stackTrace vm := by
  have h1 : native_fn_list_delete 2 [a, b] vm =
      (.nil, raise_runtime_error vm "cannot append item to non-list variable.") := by
    simp [native_fn_list_delete, h]
  have h2 : native_fn_list_append 2 [a, b] vm =
      (.nil, raise_runtime_error vm "cannot append item to non-list variable.") := by
    simp [native_fn_list_append, h]
  exact ⟨h1, h1.trans h2.symm, by rw [h1]; exact raise_stderr vm _⟩

/-- C9: on OP_CALL of a NativeFunction whose native raises a runtime
error, value_call still returns true and pushes the native's nil result,
so the dispatch step continues (`next`), even though
raise_runtime_error already reset the stack (top = 0) and the frame
stack to empty before value_call subtracted argc+1 from stack_top. -/
theorem native_error_value_call_returns_true
    (vm : VM) (f : Frame) (fnRef : Ref) (ups : List Ref) (fn : FunctionO)
    (argc : Nat) (r : Ref) (id : NativeId)
    (hf : vm.frames.getLast? = some f)
    (hcl : vm.heap[f.closure]? = some (.closure fnRef ups))
    (hfn : vm.heap[fnRef]? = some (.function fn))
    (hop : codeAt fn f.ip = some 29)
    (hargc : codeAt fn (f.ip + 1) = some argc)
    (hcallee : vm_stack_peek vm argc = .obj r)
    (hnat : vm.heap[r]? = some (.native id))
    (hraise : (runNative id argc (argsRead vm argc) (commitIp vm f (f.ip + 2))).2.stderrLog
        ≠ vm.stderrLog) :
    ∃ s, run_step vm = .next s ∧
      value_call (commitIp vm f (f.ip + 2)) (.obj r) argc = some (true, s) ∧
      (runNative id argc (argsRead vm argc) (commitIp vm f (f.ip + 2))).1 = .nil ∧
      (runNative id argc (argsRead vm argc) (commitIp vm f (f.ip + 2))).2.top = 0 ∧
      (runNative id argc (argsRead vm argc) (commitIp vm f (f.ip + 2))).2.frames = [] ∧
      s.top = -(argc : Int) ∧ s.frames = [] ∧ s.stack (s.top - 1) = .nil := by
  have hstep : run_step vm = execOp vm { f with ip := f.ip + 1 } fn ups .opCall := by
    simp [run_step, hf, hcl, hfn, hop, decodeOp]
  rcases runNative_cases id argc (argsRead vm argc) (commitIp vm f (f.ip + 2)) with ⟨m, hm⟩ | hok
  · have hvc : value_call (commitIp vm f (f.ip + 2)) (.obj r) argc =
        some (true, vm_stack_push
          { raise_runtime_error (commitIp vm f (f.ip + 2)) m with
              top := (raise_runtime_error (commitIp vm f (f.ip + 2)) m).top - ((argc : Int) + 1) }
          .nil) := by
      simp only [value_call, commitIp_heap, hnat, argsRead_commitIp, hm]
    refine ⟨_, ?_, hvc, ?_, ?_, ?_, ?_, rfl, ?_⟩
    · rw [hstep]
      simp only [execOp, hargc]
      rw [show vm_stack_peek (commitIp vm { f with ip := f.ip + 1 } (f.ip + 1 + 1)) argc =
            Value.obj r from hcallee]
      rw [show value_call (commitIp vm { f with ip := f.ip + 1 } (f.ip + 1 + 1))
            (Value.obj r) argc = _ from hvc]
    · simp [hm]
    · simp [hm, raise_top]
    · simp [hm, raise_frames]
    · show (raise_runtime_error (commitIp vm f (f.ip + 2)) m).top - ((argc : Int) + 1) + 1 =
        -(argc : Int)
      rw [raise_top]
      omega
    · exact vm_stack_push_read_top _ _
  · exact absurd hok hraise


/-- Witness for C7: calling class C (no methods) with argc = 0. -/
theorem class_call_behavior_witness :
    value_call vmClsCall (.obj 2) 0 = some (true, vmAfterInstance vmClsCall 2 0) ∧
    vm_stack_peek (vmAfterInstance vmClsCall 2 0) 0 = .obj vmClsCall.heap.length :=
  (class_call_behavior vmClsCall 2 "C" [] 0 rfl).2.2.2.2.2 rfl rfl

/-- Witness for C10: `delete` on the number 1. -/
theorem delete_non_list_message_matches_append_witness :
    native_fn_list_delete 2 [.number 1, .number 0] vmPlain =
      (.nil, raise_runtime_error vmPlain "cannot append item to non-list variable.") ∧
    native_fn_list_delete 2 [.number 1, .number 0] vmPlain =
      native_fn_list_append 2 [.number 1, .number 0] vmPlain ∧
    (native_fn_list_delete 2 [.number 1, .number 0] vmPlain).2.stderrLog =
      vmPlain.stderrLog ++ .msg "cannot append item to non-list variable." ::
        stackTrace vmPlain :=
  delete_non_list_message_matches_append vmPlain (.number 1) (.number 0) (by decide)

/-- Witness for C9: OP_CALL of the native `length` on a number. -/
theorem native_error_value_call_returns_true_witness :
    ∃ s, run_step vmNatCall = .next s ∧
      value_call (commitIp vmNatCall ⟨1, 0, 0⟩ 2) (.obj 2) 1 = some (true, s) ∧
      (runNative .length 1 (argsRead vmNatCall 1) (commitIp vmNatCall ⟨1, 0, 0⟩ 2)).1 = .nil ∧
      (runNative .length 1 (argsRead vmNatCall 1) (commitIp vmNatCall ⟨1, 0, 0⟩ 2)).2.top = 0 ∧
      (runNative .length 1 (argsRead vmNatCall 1) (commitIp vmNatCall ⟨1, 0, 0⟩ 2)).2.frames
        = [] ∧
      s.top = -(1 : Int) ∧ s.frames = [] ∧ s.stack (s.top - 1) = .nil :=
  native_error_value_call_returns_true vmNatCall ⟨1, 0, 0⟩ 0 [] _ 1 2 .length
    rfl rfl rfl rfl rfl rfl rfl (by decide)

theorem locOf_append (heap : List Obj) (u : Obj) (r : Ref) (h : r < heap.length) :
    locOf (heap ++ [u]) r = locOf heap r := by
  unfold locOf
  rw [List.getElem?_append_left h]

theorem openLocs_append (heap : List Obj) (u : Obj) :
    ∀ (l : List Ref), (∀ r ∈ l, r < heap.length) →
      openLocs (heap ++ [u]) l = openLocs heap l := by
  intro l
  induction l with
  | nil => intro _; rfl
  | cons r rest ih =>
      intro hv
      unfold openLocs
      rw [locOf_append heap u r (hv r (by simp)), ih (fun r2 h2 => hv r2 (by simp [h2]))]

theorem locOf_set_ne (heap : List Obj) (r r2 : Ref) (o : Obj) (h : r ≠ r2) :
    locOf (heapSet heap r o) r2 = locOf heap r2 := by
  unfold locOf heapSet
  rw [List.getElem?_set_ne h]

theorem openLocs_set_of_notMem (heap : List Obj) (r : Ref) (o : Obj) :
    ∀ (l : List Ref), r ∉ l →
      openLocs (heapSet heap r o) l = openLocs heap l := by
  intro l
  induction l with
  | nil => intro _; rfl
  | cons r2 rest ih =>
      intro hnm
      unfold openLocs
      rw [locOf_set_ne heap r r2 o (fun he => hnm (he ▸ List.mem_cons_self r2 rest)),
        ih (fun hm => hnm (List.mem_cons_of_mem r2 hm))]

theorem openLocs_loc_mem (heap : List Obj) :
    ∀ (l : List Ref) (ls : List Int) (r : Ref) (y : Int),
      openLocs heap l = some ls → r ∈ l → locOf heap r = some y → y ∈ ls := by
  intro l
  induction l with
  | nil => intro ls r y _ hm; simp at hm
  | cons r2 rest ih =>
      intro ls r y hol hm hloc
      unfold openLocs at hol
      rcases hlo : locOf heap r2 with _ | l0
      · rw [hlo] at hol; simp at hol
      · rw [hlo] at hol
        rcases hr : openLocs heap rest with _ | ls'
        · rw [hr] at hol; simp at hol
        · rw [hr] at hol
          simp at hol
          rcases List.mem_cons.mp hm with he | hm2
          · subst he
            rw [hloc] at hlo
            simp at hlo
            simp [← hol, hlo]
          · have := ih ls' r y hr hm2 hloc
            simp [← hol, this]

theorem captureGo_spec (heap : List Obj) (x : Int) :
    ∀ (l : List Ref) (ls : List Int),
      openLocs heap l = some ls → ls.Pairwise (· > ·) → (∀ r ∈ l, r < heap.length) →
      ∃ res l2 isNew, captureGo heap x heap.length l = some (res, l2, isNew) ∧
        ((isNew = false ∧ l2 = l ∧ res ∈ l ∧ locOf heap res = some x ∧ x ∈ ls) ∨
         (isNew = true ∧ res = heap.length ∧ x ∉ ls ∧
          ∃ ls2, openLocs (heap ++ [.upvalue (.open_ x)]) l2 = some ls2 ∧
            ls2.Pairwise (· > ·) ∧ (∀ y ∈ ls2, y ∈ ls ∨ y = x) ∧
            (∀ r2 ∈ l2, r2 < heap.length + 1))) := by
  intro l
  induction l with
  | nil =>
      intro ls hol _ _
      obtain rfl : ls = [] := by
        unfold openLocs at hol
        simpa using hol.symm
      refine ⟨heap.length, [heap.length], true, rfl,
        .inr ⟨rfl, rfl, by simp, ⟨[x], ?_, by simp, by simp, by simp⟩⟩⟩
      unfold openLocs locOf
      rw [List.getElem?_concat_length]
      rfl
  | cons r rest ih =>
      intro ls hol hpw hv
      have hvr : r < heap.length := hv r (by simp)
      have hvrest : ∀ r2 ∈ rest, r2 < heap.length := fun r2 h2 => hv r2 (by simp [h2])
      unfold openLocs at hol
      rcases hlo : locOf heap r with _ | l0
      · rw [hlo] at hol; simp at hol
      · rw [hlo] at hol
        rcases hr : openLocs heap rest with _ | ls'
        · rw [hr] at hol; simp at hol
        · rw [hr] at hol
          simp at hol
          have hls : ls = l0 :: ls' := hol.symm
          subst hls
          have hhead : ∀ y ∈ ls', l0 > y := fun y hy => List.rel_of_pairwise_cons hpw hy
          have htail : ls'.Pairwise (· > ·) := List.Pairwise.of_cons hpw
          by_cases hlt : x < l0
          · rcases ih ls' hr htail hvrest with ⟨res, rest2, isNew, hcg, hcase⟩
            refine ⟨res, r :: rest2, isNew, ?_, ?_⟩
            · simp only [captureGo, hlo]
              rw [if_pos hlt, hcg]
            · rcases hcase with ⟨hn, hrest2, hmem, hlocres, hx⟩ | ⟨hn, hres, hnx, ls2', hols2, hpw2, hsub2, hval2⟩
              · exact .inl ⟨hn, by rw [hrest2], .tail r hmem, hlocres, by simp [hx]⟩
              · refine .inr ⟨hn, hres, ?_, ⟨l0 :: ls2', ?_, ?_, ?_, ?_⟩⟩
                · intro hxm
                  rcases List.mem_cons.mp hxm with he | hm2
                  · exact absurd he.symm (ne_of_gt hlt)
                  · exact hnx hm2
                · unfold openLocs
                  rw [locOf_append heap _ r hvr, hlo, hols2]
                  rfl
                · refine List.Pairwise.cons ?_ hpw2
                  intro y hy
                  rcases hsub2 y hy with hin | he
                  · exact hhead y hin
                  · exact he ▸ hlt
                · intro y hy
                  rcases List.mem_cons.mp hy with he | hm2
                  · exact .inl (by simp [he])
                  · rcases hsub2 y hm2 with hin | he
                    · exact .inl (by simp [hin])
                    · exact .inr he
                · intro r2 hr2
                  rcases List.mem_cons.mp hr2 with he | hm2
                  · exact he ▸ Nat.lt_succ_of_lt hvr
                  · exact hval2 r2 hm2
          · by_cases heqx : l0 = x
            · refine ⟨r, r :: rest, false, ?_, .inl ⟨rfl, rfl, by simp, by rw [hlo, heqx], by simp [heqx]⟩⟩
              simp only [captureGo, hlo]
              rw [if_neg hlt, if_pos heqx]
            · have hgt : l0 < x := by
                rcases lt_trichotomy x l0 with h1 | h1 | h1
                · exact absurd h1 hlt
                · exact absurd h1.symm heqx
                · exact h1
              refine ⟨heap.length, heap.length :: r :: rest, true, ?_, ?_⟩
              · simp only [captureGo, hlo]
                rw [if_neg hlt, if_neg heqx]
              · refine .inr ⟨rfl, rfl, ?_, ⟨x :: l0 :: ls', ?_, ?_, ?_, ?_⟩⟩
                · intro hxm
                  rcases List.mem_cons.mp hxm with he | hm2
                  · exact heqx he.symm
                  · exact absurd (hhead x hm2) (not_lt_of_gt hgt)
                · unfold openLocs
                  rw [show locOf (heap ++ [Obj.upvalue (.open_ x)]) heap.length = some x by
                    unfold locOf
                    rw [List.getElem?_concat_length]]
                  unfold openLocs
                  rw [locOf_append heap _ r hvr, hlo,
                    openLocs_append heap _ rest hvrest, hr]
                  rfl
                · refine List.Pairwise.cons ?_ (List.Pairwise.cons hhead htail)
                  intro y hy
                  rcases List.mem_cons.mp hy with he | hm2
                  · exact he ▸ hgt
                  · exact lt_trans (hhead y hm2) hgt
                · intro y hy
                  rcases List.mem_cons.mp hy with he | hm2
                  · exact .inr he
                  · exact .inl (by simp [List.mem_cons.mp hm2])
                · intro r2 hr2
                  rcases List.mem_cons.mp hr2 with he | hm2
                  · simp [he]
                  · rcases List.mem_cons.mp hm2 with he2 | hm3
                    · exact he2 ▸ Nat.lt_succ_of_lt hvr
                    · exact Nat.lt_succ_of_lt (hvrest r2 hm3)

theorem closeGo_spec (stack : Int → Value) (last : Int) :
    ∀ (l : List Ref) (heap : List Obj) (ls : List Int),
      openLocs heap l = some ls → ls.Pairwise (· > ·) → (∀ r ∈ l, r < heap.length) →
      ∃ l2 heap2, closeGo stack last l heap = some (l2, heap2) ∧
        heap2.length = heap.length ∧
        ∃ ls2, openLocs heap2 l2 = some ls2 ∧ ls2.Pairwise (· > ·) ∧
          (∀ r2 ∈ l2, r2 < heap2.length) := by
  intro l
  induction l with
  | nil =>
      intro heap ls _ _ _
      exact ⟨[], heap, rfl, rfl, [], rfl, List.Pairwise.nil, by simp⟩
  | cons r rest ih =>
      intro heap ls hol hpw hv
      have hvr := hv r (by simp)
      have hvrest : ∀ r2 ∈ rest, r2 < heap.length := fun r2 h2 => hv r2 (by simp [h2])
      unfold openLocs at hol
      rcases hlo : locOf heap r with _ | l0
      · rw [hlo] at hol; simp at hol
      · rw [hlo] at hol
        rcases hr : openLocs heap rest with _ | ls'
        · rw [hr] at hol; simp at hol
        · rw [hr] at hol
          simp at hol
          have hls : ls = l0 :: ls' := hol.symm
          subst hls
          have hhead : ∀ y ∈ ls', l0 > y := fun y hy => List.rel_of_pairwise_cons hpw hy
          have htail := List.Pairwise.of_cons hpw
          by_cases hle : last ≤ l0
          · have hnm : r ∉ rest := by
              intro hm
              exact lt_irrefl l0 (hhead l0 (openLocs_loc_mem heap rest ls' r l0 hr hm hlo))
            have hrest1 : openLocs (heapSet heap r (.upvalue (.closed (stack l0)))) rest
                = some ls' := by
              rw [openLocs_set_of_notMem heap r _ rest hnm, hr]
            have hvrest1 : ∀ r2 ∈ rest,
                r2 < (heapSet heap r (.upvalue (.closed (stack l0)))).length := by
              intro r2 h2
              unfold heapSet
              rw [List.length_set]
              exact hvrest r2 h2
            rcases ih (heapSet heap r (.upvalue (.closed (stack l0)))) ls' hrest1 htail hvrest1
              with ⟨l2, heap2, hcg, hlen, ls2, hol2, hpw2, hval2⟩
            refine ⟨l2, heap2, ?_, ?_, ls2, hol2, hpw2, hval2⟩
            · simp only [closeGo, hlo]
              rw [if_pos hle, hcg]
            · rw [hlen]
              unfold heapSet
              rw [List.length_set]
          · refine ⟨r :: rest, heap, ?_, rfl, l0 :: ls', ?_, hpw, hv⟩
            · simp only [closeGo, hlo]
              rw [if_neg hle]
            · unfold openLocs
              rw [hlo, hr]
              rfl

/-- C8: the open-upvalue list operations preserve well-formedness —
after `upvalue_capture` (upvalue capture during OP_CLOSURE) and after
`upvalue_close_until` (closing during OP_CLOSE_UPVALUE and OP_RETURN)
the list is strictly sorted by decreasing stack-slot location and no
two open upvalues reference the same slot (the location list is Nodup);
and capturing a slot that already has an open upvalue returns the
existing entry with the VM unchanged, allocating nothing. -/
theorem open_upvalue_list_invariant :
    (∀ (vm : VM) (x : Int) (res : Ref) (vm2 : VM),
      UpvListWF vm.heap vm.openUpvalues →
      upvalue_capture vm x = some (res, vm2) →
      UpvListWF vm2.heap vm2.openUpvalues ∧
        ∃ ls, openLocs vm2.heap vm2.openUpvalues = some ls ∧ ls.Nodup) ∧
    (∀ (vm : VM) (x : Int),
      UpvListWF vm.heap vm.openUpvalues →
      (∃ rr ∈ vm.openUpvalues, locOf vm.heap rr = some x) →
      ∃ res, upvalue_capture vm x = some (res, vm) ∧ res ∈ vm.openUpvalues ∧
        locOf vm.heap res = some x) ∧
    (∀ (vm : VM) (last : Int) (vm2 : VM),
      UpvListWF vm.heap vm.openUpvalues →
      upvalue_close_until vm last = some vm2 →
      UpvListWF vm2.heap vm2.openUpvalues ∧
        ∃ ls, openLocs vm2.heap vm2.openUpvalues = some ls ∧ ls.Nodup) := by
  refine ⟨?_, ?_, ?_⟩
  · intro vm x res vm2 hwf hcap
    rcases hwf with ⟨hval, ls, hol, hpw⟩
    rcases captureGo_spec vm.heap x vm.openUpvalues ls hol hpw hval with
      ⟨res', l2, isNew, hcg, hcase⟩
    unfold upvalue_capture at hcap
    rw [hcg] at hcap
    simp only [Option.some.injEq, Prod.mk.injEq] at hcap
    obtain ⟨rfl, rfl⟩ := hcap
    rcases hcase with ⟨hn, hl2, _, _, hx⟩ | ⟨hn, _, _, ls2, hol2, hpw2, _, hval2⟩
    · subst hn hl2
      exact ⟨⟨hval, ls, hol, hpw⟩, ls, hol, hpw.imp (fun h => ne_of_gt h)⟩
    · subst hn
      refine ⟨⟨?_, ls2, hol2, hpw2⟩, ls2, hol2, hpw2.imp (fun h => ne_of_gt h)⟩
      show ∀ r2 ∈ l2, r2 < (vm.heap ++ [Obj.upvalue (.open_ x)]).length
      intro r2 h2
      rw [List.length_append]
      exact hval2 r2 h2
  · intro vm x hwf hex
    rcases hwf with ⟨hval, ls, hol, hpw⟩
    rcases hex with ⟨rr, hrm, hrloc⟩
    have hx : x ∈ ls := openLocs_loc_mem vm.heap vm.openUpvalues ls rr x hol hrm hrloc
    rcases captureGo_spec vm.heap x vm.openUpvalues ls hol hpw hval with
      ⟨res', l2, isNew, hcg, hcase⟩
    rcases hcase with ⟨hn, hl2, hmem, hlocres, _⟩ | ⟨_, _, hnx, _⟩
    · refine ⟨res', ?_, hmem, hlocres⟩
      unfold upvalue_capture
      rw [hcg]
      subst hn hl2
      rfl
    · exact absurd hx hnx
  · intro vm last vm2 hwf hcl
    rcases hwf with ⟨hval, ls, hol, hpw⟩
    rcases closeGo_spec vm.stack last vm.openUpvalues vm.heap ls hol hpw hval with
      ⟨l2, heap2, hcg, _, ls2, hol2, hpw2, hval2⟩
    unfold upvalue_close_until at hcl
    rw [hcg] at hcl
    simp only [Option.some.injEq] at hcl
    subst hcl
    exact ⟨⟨hval2, ls2, hol2, hpw2⟩, ls2, hol2, hpw2.imp (fun h => ne_of_gt h)⟩

/-- Witness for C8: capture of a fresh slot 7, capture of the already
captured slot 5, and closing everything from slot 0 up. -/
theorem open_upvalue_list_invariant_witness :
    (∃ res vm2, upvalue_capture vmUpv 7 = some (res, vm2) ∧
      UpvListWF vm2.heap vm2.openUpvalues) ∧
    (∃ res, upvalue_capture vmUpv 5 = some (res, vmUpv) ∧ res ∈ vmUpv.openUpvalues ∧
      locOf vmUpv.heap res = some 5) ∧
    (∃ vm2, upvalue_close_until vmUpv 0 = some vm2 ∧
      UpvListWF vm2.heap vm2.openUpvalues) := by
  have hwf : UpvListWF vmUpv.heap vmUpv.openUpvalues := ⟨by decide, [5], rfl, by decide⟩
  refine ⟨⟨3, _, rfl, (open_upvalue_list_invariant.1 vmUpv 7 3 _ hwf rfl).1⟩, ?_, ?_⟩
  · exact open_upvalue_list_invariant.2.1 vmUpv 5 hwf ⟨2, by decide, rfl⟩
  · exact ⟨_, rfl, (open_upvalue_list_invariant.2.2 vmUpv 0 _ hwf rfl).1⟩
